import Mathlib

/-!
# Verification of the vcl lexical scanner (src/src/main.cpp)

Shallow embedding of the `Lexer` class from `src/src/main.cpp`.  The C++
code reads its source through a `std::ifstream`; the stream operations it
uses (`peek`, `get()`, `get(char*, n, delim)`, `tellg`, `seekg`, `good`)
are modelled here byte for byte, including the C++11 flag semantics that
the code's behaviour depends on:

* `peek` at end-of-input sets `eofbit`;
* `get()` at end-of-input sets `eofbit` and `failbit`;
* `tellg` behaves as an unformatted input function: its sentry sets
  `failbit` whenever the stream is not `good()`, so `tellg` after hitting
  end-of-file returns -1 and leaves the stream failed;
* `seekg` first clears `eofbit`, then does nothing if `failbit` is set;
* `get(char* s, streamsize count, char delim)` extracts at most
  `count - 1` bytes, stopping early at the delimiter or end-of-file,
  sets `failbit` when it extracts no byte, stores a terminating null
  when `count > 0`, and leaves the buffer untouched (uninitialized
  memory) when its sentry fails or `count <= 0`.

Sources are byte lists (`List Nat`).  Reading uninitialized memory
(`std::string(buf)` on a buffer `get` never wrote) is undefined
behaviour in the C++ program; the embedding surfaces it as the
distinguished outcome `Outcome.undef` instead of inventing a value.
The character-classification calls (`std::isalpha` etc.) are modelled on
the ASCII ranges; for bytes 128..255 the C++ call is made with a
negative `char` and glibc's C locale classifies them all as false,
which is what the model returns as well.  The `file_path` field of the
C++ `Location` is a constant per run and is omitted.
-/

/-- The subset of `std::ifstream` state this program exercises: the
underlying bytes, the read position, and the two status flags it can
set (`badbit` never arises for an in-memory source). -/
structure Strm where
  data : List Nat
  pos : Nat
  eofbit : Bool
  failbit : Bool
deriving DecidableEq, Repr

/-- `std::ios::good()` : no error flag is set. -/
def Strm.goodb (s : Strm) : Bool := !s.eofbit && !s.failbit

/-- `std::istream::peek` : the next byte without advancing, or -1 (EOF).
Its sentry sets `failbit` on a non-good stream; peeking at end-of-input
sets `eofbit`. -/
def Strm.peek (s : Strm) : Int × Strm :=
  if s.goodb then
    match s.data[s.pos]? with
    | some b => ((b : Int), s)
    | none => (-1, { s with eofbit := true })
  else (-1, { s with failbit := true })

/-- `std::istream::get()` : one byte, advancing; on failure returns -1
and sets both `eofbit` and `failbit`. -/
def Strm.get1 (s : Strm) : Int × Strm :=
  if s.goodb then
    match s.data[s.pos]? with
    | some b => ((b : Int), { s with pos := s.pos + 1 })
    | none => (-1, { s with eofbit := true, failbit := true })
  else (-1, { s with failbit := true })

/-- `std::istream::tellg` : the current position, or -1 when the sentry
fails (which itself sets `failbit`, also when only `eofbit` was set). -/
def Strm.tellg (s : Strm) : Int × Strm :=
  if s.goodb then ((s.pos : Int), s)
  else (-1, { s with failbit := true })

/-- `std::istream::seekg` : clears `eofbit` first; then, if the stream
is failed, the sentry keeps it failed and the position is unchanged. -/
def Strm.seekg (s : Strm) (off : Int) : Strm :=
  let s1 : Strm := { s with eofbit := false }
  if s1.goodb then { s1 with pos := off.toNat } else { s1 with failbit := true }

/-- Extraction loop of `get(char*, count, delim)` with `delim = '\0'`:
read at most `k` bytes, stopping at end-of-input (sets `eofbit`) or at a
null byte (left unextracted). -/
def getLoop : Nat → Strm → List Nat × Strm
  | 0, s => ([], s)
  | k + 1, s =>
    match s.data[s.pos]? with
    | none => ([], { s with eofbit := true })
    | some b =>
      if b = 0 then ([], s)
      else
        let r := getLoop k { s with pos := s.pos + 1 }
        (b :: r.1, r.2)

/-- `std::istream::get(char* buf, streamsize count, char delim)` with
`delim = '\0'`, as the lexer calls it.  Returns the bytes the caller's
`std::string(buf)` would observe, or `none` when the buffer is left
uninitialized (sentry failure, or `count <= 0` so that not even the
terminating null is stored). -/
def Strm.getN (s : Strm) (count : Int) : Option (List Nat) × Strm :=
  if s.goodb then
    let r := getLoop (count - 1).toNat s
    let s2 : Strm := if r.1.isEmpty then { r.2 with failbit := true } else r.2
    if 1 ≤ count then (some r.1, s2) else (none, s2)
  else (none, { s with failbit := true })

/-- `enum class TokenType` from the source, same constructors. -/
inductive TokenType where
  | IDENTITY
  | OPEN_PAREN
  | CLOSE_PAREN
  | OPEN_CURLY
  | CLOSE_CURLY
  | SEMICOLON
  | NUMBER
  | STRING
  | RETURN
deriving DecidableEq, Repr

/-- `struct Location` (row and col are C++ `int`; `file_path` is a
per-run constant and is omitted). -/
structure Location where
  row : Nat
  col : Int
deriving DecidableEq, Repr

/-- `struct Token`: kind, optional text payload (bytes of the
`std::string`), optional number payload, location. -/
structure Token where
  type : TokenType
  text : Option (List Nat)
  number : Option Int
  location : Location
deriving DecidableEq, Repr

/-- `token_type_map` : the fixed single-character punctuation table
`'(' ')' '{' '}' ';'`. -/
def token_type_map (c : Int) : TokenType :=
  if c = 40 then .OPEN_PAREN
  else if c = 41 then .CLOSE_PAREN
  else if c = 123 then .OPEN_CURLY
  else if c = 125 then .CLOSE_CURLY
  else .SEMICOLON

/-- `is_in_token_map` : membership in the punctuation table. -/
def is_in_token_map (c : Int) : Bool :=
  c = 40 || c = 41 || c = 123 || c = 125 || c = 59

/-- `std::isspace` on the value `peek` returned (EOF = -1 is not a
space; bytes above 127 are not spaces in the C locale). -/
def isspaceB (c : Int) : Bool :=
  c = 9 || c = 10 || c = 11 || c = 12 || c = 13 || c = 32

/-- `std::isalpha` likewise (ASCII letters only in the C locale). -/
def isalphaB (c : Int) : Bool :=
  (65 ≤ c && c ≤ 90) || (97 ≤ c && c ≤ 122)

/-- `std::isdigit` likewise. -/
def isdigitB (c : Int) : Bool :=
  48 ≤ c && c ≤ 57

/-- `std::isalnum` likewise. -/
def isalnumB (c : Int) : Bool :=
  isalphaB c || isdigitB c

/-- The scanner state: the stream plus the `line_begin` and `row`
members of class `Lexer` (both C++ `int`; `row` only ever increments
from 0, `line_begin` is stored as the `int` the code computes). -/
structure Lexer where
  strm : Strm
  line_begin : Int
  row : Nat
deriving DecidableEq, Repr

/-- `Lexer::chop_char` : `if (source.good() && source.get() == '\n') {
line_begin = (int)source.tellg() + 1; ++row; }`. -/
def chop_char (l : Lexer) : Lexer :=
  if l.strm.goodb then
    let r := l.strm.get1
    if r.1 = 10 then
      let t := r.2.tellg
      { strm := t.2, line_begin := t.1 + 1, row := l.row + 1 }
    else { l with strm := r.2 }
  else l

/-- The common loop shape `while (source.good() && p(source.peek()))
chop_char();` used by `trim_left`, `drop_line` and the identifier,
number and string scans.  `fuel` bounds the iteration count; every call
site passes enough fuel for the loop to run to completion. -/
def scan_while (p : Int → Bool) : Nat → Lexer → Lexer
  | 0, l => l
  | fuel + 1, l =>
    if l.strm.goodb then
      let r := l.strm.peek
      let l1 : Lexer := { l with strm := r.2 }
      if p r.1 then scan_while p fuel (chop_char l1) else l1
    else l

/-- `Lexer::trim_left`. -/
def trim_left (fuel : Nat) (l : Lexer) : Lexer :=
  scan_while isspaceB fuel l

/-- `Lexer::drop_line` : skip to and through the next newline. -/
def drop_line (fuel : Nat) (l : Lexer) : Lexer :=
  let l1 := scan_while (fun c => !(c = 10)) fuel l
  if l1.strm.goodb then chop_char l1 else l1

/-- The comment loop at the head of `next_token`:
`while (source.good() && source.peek() == '#') { drop_line(); trim_left(); }`. -/
def comment_loop : Nat → Nat → Lexer → Lexer
  | _, 0, l => l
  | innerFuel, fuel + 1, l =>
    if l.strm.goodb then
      let r := l.strm.peek
      let l1 : Lexer := { l with strm := r.2 }
      if r.1 = 35 then
        comment_loop innerFuel fuel (trim_left innerFuel (drop_line innerFuel l1))
      else l1
    else l

/-- Result of one `next_token` call.  `eoi` is the empty optional
(end of input); `undef` marks the undefined behaviour of building a
`std::string` from a buffer `istream::get` never wrote; `fatal` is the
`assert(false && "Not implemented")` branch. -/
inductive Outcome where
  | tok : Token → Lexer → Outcome
  | eoi : Lexer → Outcome
  | undef : Outcome
  | fatal : Lexer → Outcome
deriving DecidableEq, Repr

/-- `std::atoi` on the buffers this lexer can hand it (a nonempty run
of ASCII digits): the base-10 value of the leading digit run. -/
def atoiM (bs : List Nat) : Int :=
  (bs.takeWhile (fun b => 48 ≤ b && b ≤ 57)).foldl
    (fun acc b => acc * 10 + ((b : Int) - 48)) 0

/-- The shared tail of the identifier, number and string branches of
`next_token` (the C++ repeats this code verbatim in each):
`n = tellg() - start + 1; seekg(start); get(buf, n, '\0')`.  Returns
the bytes `std::string(buf)` would observe (`none` when the buffer is
left uninitialized) and the scanner state after the re-read. -/
def rescan (start : Int) (l2 : Lexer) : Option (List Nat) × Lexer :=
  let t1 := l2.strm.tellg
  let n : Int := t1.1 - start + 1
  let l3 : Lexer := { l2 with strm := t1.2 }
  let l4 : Lexer := { l3 with strm := l3.strm.seekg start }
  let g := l4.strm.getN n
  (g.1, { l4 with strm := g.2 })

/-- The identifier branch of `next_token`: record `start = tellg()`,
scan alphanumerics, then seek back and re-read the run. -/
def identBranch (fuel : Nat) (loc : Location) (l : Lexer) : Outcome :=
  let t0 := l.strm.tellg
  let start := t0.1
  let l1 : Lexer := { l with strm := t0.2 }
  let l2 := scan_while isalnumB fuel l1
  let m := rescan start l2
  match m.1 with
  | none => .undef
  | some bs => .tok ⟨.IDENTITY, some bs, none, loc⟩ m.2

/-- The number branch of `next_token`; same shape, ending in `atoi`. -/
def numberBranch (fuel : Nat) (loc : Location) (l : Lexer) : Outcome :=
  let t0 := l.strm.tellg
  let start := t0.1
  let l1 : Lexer := { l with strm := t0.2 }
  let l2 := scan_while isdigitB fuel l1
  let m := rescan start l2
  match m.1 with
  | none => .undef
  | some bs => .tok ⟨.NUMBER, none, some (atoiM bs), loc⟩ m.2

/-- The string branch of `next_token`: chop the opening quote, scan to
the next quote or end-of-input, seek back, re-read, then chop the
closing quote. -/
def stringBranch (fuel : Nat) (loc : Location) (l : Lexer) : Outcome :=
  let l0 := chop_char l
  let t0 := l0.strm.tellg
  let start := t0.1
  let l1 : Lexer := { l0 with strm := t0.2 }
  let l2 := scan_while (fun c => !(c = 34)) fuel l1
  let m := rescan start l2
  match m.1 with
  | none => .undef
  | some bs => .tok ⟨.STRING, some bs, none, loc⟩ (chop_char m.2)

/-- Enough fuel for every loop in one `next_token` call: no loop can
iterate more than `data.length + 2` times before its exit condition
holds. -/
def lexFuel (l : Lexer) : Nat := l.strm.data.length + 2

/-- `Lexer::next_token`, translated statement by statement. -/
def next_token (l0 : Lexer) : Outcome :=
  let fuel := lexFuel l0
  let l1 := trim_left fuel l0
  let l2 := comment_loop fuel fuel l1
  if !l2.strm.goodb then .eoi l2
  else
    let t := l2.strm.tellg
    let lA : Lexer := { l2 with strm := t.2 }
    let loc : Location := ⟨lA.row, t.1 - lA.line_begin⟩
    let r := lA.strm.peek
    let c := r.1
    let lB : Lexer := { lA with strm := r.2 }
    if isalphaB c then identBranch fuel loc lB
    else if is_in_token_map c then
      .tok ⟨token_type_map c, none, none, loc⟩ (chop_char lB)
    else if isdigitB c then numberBranch fuel loc lB
    else if c = 34 then stringBranch fuel loc lB
    else .fatal lB

/-- A freshly constructed `Lexer` on an open source: position 0, no
flags, `line_begin = 0`, `row = 0`. -/
def init (src : List Nat) : Lexer :=
  ⟨⟨src, 0, false, false⟩, 0, 0⟩

/-- The driver loop of `main`: call `next_token` until it stops
producing tokens, collecting the tokens in order.  `n` bounds the
number of calls. -/
def run : Nat → Lexer → List Token
  | 0, _ => []
  | n + 1, l =>
    match next_token l with
    | .tok t l1 => t :: run n l1
    | _ => []

/-- The full token sequence of a source: every token consumes at least
one byte, so `length + 1` calls reach the terminal outcome. -/
def tokens (src : List Nat) : List Token :=
  run (src.length + 1) (init src)

/-- Bytes of a string literal, for writing concrete sources. -/
def bytesOf (s : String) : List Nat :=
  s.data.map Char.toNat

/-- C8: scanning the source `(){};` yields exactly five tokens, in order
OpenParen, CloseParen, OpenCurly, CloseCurly, Semicolon, all on row 0 at
successive columns 0, 1, 2, 3, 4. -/
theorem c8_punctuation_round_trip :
    tokens (bytesOf "(){};") =
      [⟨.OPEN_PAREN, none, none, ⟨0, 0⟩⟩,
       ⟨.CLOSE_PAREN, none, none, ⟨0, 1⟩⟩,
       ⟨.OPEN_CURLY, none, none, ⟨0, 2⟩⟩,
       ⟨.CLOSE_CURLY, none, none, ⟨0, 3⟩⟩,
       ⟨.SEMICOLON, none, none, ⟨0, 4⟩⟩] := by decide

/-- C9: scanning `"hello world"` (with the delimiting double quotes)
yields exactly one token, a String whose payload is the eleven bytes
`hello world`, verbatim, with both quotes excluded. -/
theorem c9_string_verbatim :
    tokens (bytesOf "\"hello world\"") =
      [⟨.STRING, some (bytesOf "hello world"), none, ⟨0, 0⟩⟩] := by decide

/-- C1 (against the claim "x at row 1, column 0"): scanning
`"# comment\nx;"` does yield exactly the two tokens Identifier "x" then
Semicolon, but the Identifier is reported at row 1, column -1: after
consuming the newline, `chop_char` sets `line_begin` to `tellg() + 1`,
one byte too far, so the first column of every line after the first is
-1 instead of 0. -/
theorem c1_comment_scan_column :
    tokens (bytesOf "# comment\nx;") =
      [⟨.IDENTITY, some (bytesOf "x"), none, ⟨1, -1⟩⟩,
       ⟨.SEMICOLON, none, none, ⟨1, 0⟩⟩] := by decide

/-- C2 (against the claim "line_start_offset points one byte past the
consumed newline"): consuming the single newline of the source `"\n"`
leaves the cursor at offset 1, increments `row` to 1, but sets
`line_begin` to 2 — two bytes past the newline, not one.  Consequently
the column the scanner attaches to a token at the start of the next
line is -1, as the tokens of `"\nx;"` show, where the claimed invariant
`cursor_at_token_start - line_start_offset` would give 1 - 1 = 0. -/
theorem c2_line_begin_two_past_newline :
    (chop_char (init (bytesOf "\n"))).strm.pos = 1 ∧
    (chop_char (init (bytesOf "\n"))).row = 1 ∧
    (chop_char (init (bytesOf "\n"))).line_begin = 2 ∧
    tokens (bytesOf "\nx;") =
      [⟨.IDENTITY, some (bytesOf "x"), none, ⟨1, -1⟩⟩,
       ⟨.SEMICOLON, none, none, ⟨1, 0⟩⟩] := by
  refine ⟨?_, ?_, ?_, ?_⟩ <;> decide

/-- C3 (against the claim "fails with LexicalError{UnterminatedString}"):
on the unterminated string source `"abc` the scan does not produce any
error value.  The end-of-input `peek` sets `eofbit`, the following
`tellg()` therefore sets `failbit` and returns -1, `seekg` and
`get(buf, -1, '\0')` then do nothing, and the code builds a
`std::string` from the buffer `get` never wrote — undefined behaviour,
surfaced by the embedding as `Outcome.undef`. -/
theorem c3_unterminated_string_undefined :
    next_token (init (bytesOf "\"abc")) = Outcome.undef := by decide

/-- C4: on the source `""x;` the scanner returns a String token with
empty text at row 0, column 0; the `get(buf, 1, '\0')` call that
materializes the empty text extracts nothing and sets `failbit`, so the
final `chop_char` never consumes the closing quote (the cursor stays at
offset 1) and the stream is left failed; the very next `next_token`
call returns end-of-input with the state unchanged, and the whole scan
silently drops the remaining tokens `x` and `;`. -/
theorem c4_empty_string_drops_rest :
    next_token (init (bytesOf "\"\"x;")) =
      Outcome.tok ⟨.STRING, some [], none, ⟨0, 0⟩⟩
        ⟨⟨bytesOf "\"\"x;", 1, false, true⟩, 0, 0⟩ ∧
    next_token ⟨⟨bytesOf "\"\"x;", 1, false, true⟩, 0, 0⟩ =
      Outcome.eoi ⟨⟨bytesOf "\"\"x;", 1, false, true⟩, 0, 0⟩ ∧
    tokens (bytesOf "\"\"x;") = [⟨.STRING, some [], none, ⟨0, 0⟩⟩] := by
  refine ⟨?_, ?_, ?_⟩ <;> decide

/-- C10: the scan is deterministic in the source contents — two
scanners constructed on equal byte sequences produce equal token
sequences, however many tokens are demanded. -/
theorem c10_scan_deterministic (s1 s2 : List Nat) (h : s1 = s2) (n : Nat) :
    run n (init s1) = run n (init s2) := by rw [h]

/-- Witness for C10 at the concrete source `x;`. -/
theorem c10_scan_deterministic_witness :
    bytesOf "x;" = bytesOf "x;" ∧
    run 3 (init (bytesOf "x;")) = run 3 (init (bytesOf "x;")) :=
  ⟨rfl, c10_scan_deterministic (bytesOf "x;") (bytesOf "x;") rfl 3⟩

/-! ## Exhaustion (C6)

Once an error flag is set, every loop guard `source.good() && ...`
short-circuits before touching the stream, so `next_token` returns
end-of-input without changing anything. -/

theorem scan_while_not_good (p : Int → Bool) (fuel : Nat) (l : Lexer)
    (h : l.strm.goodb = false) : scan_while p fuel l = l := by
  cases fuel <;> simp [scan_while, h]

theorem comment_loop_not_good (innerFuel fuel : Nat) (l : Lexer)
    (h : l.strm.goodb = false) : comment_loop innerFuel fuel l = l := by
  cases fuel <;> simp [comment_loop, h]

theorem next_token_not_good (l : Lexer) (h : l.strm.goodb = false) :
    next_token l = .eoi l := by
  simp [next_token, trim_left, scan_while_not_good _ _ _ h,
    comment_loop_not_good _ _ _ h, h]

theorem identBranch_ne_eoi (fuel : Nat) (loc : Location) (l l1 : Lexer) :
    identBranch fuel loc l ≠ .eoi l1 := by
  simp only [identBranch]
  split <;> simp

theorem numberBranch_ne_eoi (fuel : Nat) (loc : Location) (l l1 : Lexer) :
    numberBranch fuel loc l ≠ .eoi l1 := by
  simp only [numberBranch]
  split <;> simp

theorem stringBranch_ne_eoi (fuel : Nat) (loc : Location) (l l1 : Lexer) :
    stringBranch fuel loc l ≠ .eoi l1 := by
  simp only [stringBranch]
  split <;> simp

theorem next_token_eoi_not_good (l l1 : Lexer) (h : next_token l = .eoi l1) :
    l1.strm.goodb = false := by
  simp only [next_token] at h
  split at h
  · next hg =>
    injection h with h2
    subst h2
    simpa using hg
  · split at h
    · exact absurd h (identBranch_ne_eoi _ _ _ _)
    · split at h
      · exact Outcome.noConfusion h
      · split at h
        · exact absurd h (numberBranch_ne_eoi _ _ _ _)
        · split at h
          · exact absurd h (stringBranch_ne_eoi _ _ _ _)
          · exact Outcome.noConfusion h

/-- C6: once `next_token` has returned end-of-input, every further call
returns end-of-input again, with the scanner state (cursor, row,
line-start offset, flags) unchanged: the returned state is a fixed
point of `next_token`. -/
theorem c6_eoi_fixpoint (l l1 : Lexer) (h : next_token l = .eoi l1) :
    next_token l1 = .eoi l1 :=
  next_token_not_good l1 (next_token_eoi_not_good l l1 h)

/-- Witness for C6: the empty source reaches end-of-input at once, and
the resulting state is indeed a fixed point. -/
theorem c6_eoi_fixpoint_witness :
    next_token (init []) = Outcome.eoi ⟨⟨[], 0, true, false⟩, 0, 0⟩ ∧
    next_token ⟨⟨[], 0, true, false⟩, 0, 0⟩ =
      Outcome.eoi ⟨⟨[], 0, true, false⟩, 0, 0⟩ :=
  ⟨by decide, c6_eoi_fixpoint (init []) ⟨⟨[], 0, true, false⟩, 0, 0⟩ (by decide)⟩

/-! ## Payload discipline (C7) -/

theorem identBranch_tok_shape (fuel : Nat) (loc : Location) (l : Lexer)
    (t : Token) (l1 : Lexer) (h : identBranch fuel loc l = .tok t l1) :
    ∃ bs, t = ⟨.IDENTITY, some bs, none, loc⟩ := by
  simp only [identBranch] at h
  split at h
  · exact Outcome.noConfusion h
  · next bs heq =>
    injection h with h1 h2
    exact ⟨bs, h1.symm⟩

theorem numberBranch_tok_shape (fuel : Nat) (loc : Location) (l : Lexer)
    (t : Token) (l1 : Lexer) (h : numberBranch fuel loc l = .tok t l1) :
    ∃ k, t = ⟨.NUMBER, none, some k, loc⟩ := by
  simp only [numberBranch] at h
  split at h
  · exact Outcome.noConfusion h
  · next bs heq =>
    injection h with h1 h2
    exact ⟨atoiM bs, h1.symm⟩

theorem stringBranch_tok_shape (fuel : Nat) (loc : Location) (l : Lexer)
    (t : Token) (l1 : Lexer) (h : stringBranch fuel loc l = .tok t l1) :
    ∃ bs, t = ⟨.STRING, some bs, none, loc⟩ := by
  simp only [stringBranch] at h
  split at h
  · exact Outcome.noConfusion h
  · next bs heq =>
    injection h with h1 h2
    exact ⟨bs, h1.symm⟩

theorem token_type_map_punct (c : Int) :
    token_type_map c = .OPEN_PAREN ∨ token_type_map c = .CLOSE_PAREN ∨
    token_type_map c = .OPEN_CURLY ∨ token_type_map c = .CLOSE_CURLY ∨
    token_type_map c = .SEMICOLON := by
  unfold token_type_map
  split
  · exact Or.inl rfl
  split
  · exact Or.inr (Or.inl rfl)
  split
  · exact Or.inr (Or.inr (Or.inl rfl))
  split
  · exact Or.inr (Or.inr (Or.inr (Or.inl rfl)))
  · exact Or.inr (Or.inr (Or.inr (Or.inr rfl)))

theorem token_type_map_not_payload (c : Int) :
    token_type_map c ≠ .IDENTITY ∧ token_type_map c ≠ .STRING ∧
    token_type_map c ≠ .NUMBER := by
  rcases token_type_map_punct c with h | h | h | h | h <;> rw [h] <;>
    exact ⟨by decide, by decide, by decide⟩

/-- C7: every token `next_token` returns populates exactly one of the
`text` and `number` payloads when its kind is Identifier (text),
String (text) or Number (number), and populates neither payload when
its kind is one of the punctuation kinds. -/
theorem c7_payload_discipline (l : Lexer) (t : Token) (l1 : Lexer)
    (h : next_token l = .tok t l1) :
    ((t.type = .IDENTITY ∨ t.type = .STRING) →
      t.text.isSome = true ∧ t.number = none) ∧
    (t.type = .NUMBER → t.text = none ∧ t.number.isSome = true) ∧
    ((t.type = .OPEN_PAREN ∨ t.type = .CLOSE_PAREN ∨ t.type = .OPEN_CURLY ∨
        t.type = .CLOSE_CURLY ∨ t.type = .SEMICOLON) →
      t.text = none ∧ t.number = none) := by
  simp only [next_token] at h
  split at h
  · exact Outcome.noConfusion h
  · split at h
    · obtain ⟨bs, rfl⟩ := identBranch_tok_shape _ _ _ _ _ h
      refine ⟨?_, ?_, ?_⟩ <;> intro hk <;> simp_all
    · split at h
      · injection h with h1 h2
        subst h1
        refine ⟨?_, ?_, fun _ => ⟨rfl, rfl⟩⟩
        · rintro (hk | hk)
          · exact absurd hk (token_type_map_not_payload _).1
          · exact absurd hk (token_type_map_not_payload _).2.1
        · intro hk
          exact absurd hk (token_type_map_not_payload _).2.2
      · split at h
        · obtain ⟨k, rfl⟩ := numberBranch_tok_shape _ _ _ _ _ h
          refine ⟨?_, ?_, ?_⟩ <;> intro hk <;> simp_all
        · split at h
          · obtain ⟨bs, rfl⟩ := stringBranch_tok_shape _ _ _ _ _ h
            refine ⟨?_, ?_, ?_⟩ <;> intro hk <;> simp_all
          · exact Outcome.noConfusion h

/-- Witness for C7: instantiated at the OpenParen token of source `(`. -/
theorem c7_payload_discipline_witness :
    (((Token.mk .OPEN_PAREN none none ⟨0, 0⟩).type = .IDENTITY ∨
        (Token.mk .OPEN_PAREN none none ⟨0, 0⟩).type = .STRING) →
      (Token.mk .OPEN_PAREN none none ⟨0, 0⟩).text.isSome = true ∧
        (Token.mk .OPEN_PAREN none none ⟨0, 0⟩).number = none) ∧
    ((Token.mk .OPEN_PAREN none none ⟨0, 0⟩).type = .NUMBER →
      (Token.mk .OPEN_PAREN none none ⟨0, 0⟩).text = none ∧
        (Token.mk .OPEN_PAREN none none ⟨0, 0⟩).number.isSome = true) ∧
    (((Token.mk .OPEN_PAREN none none ⟨0, 0⟩).type = .OPEN_PAREN ∨
        (Token.mk .OPEN_PAREN none none ⟨0, 0⟩).type = .CLOSE_PAREN ∨
        (Token.mk .OPEN_PAREN none none ⟨0, 0⟩).type = .OPEN_CURLY ∨
        (Token.mk .OPEN_PAREN none none ⟨0, 0⟩).type = .CLOSE_CURLY ∨
        (Token.mk .OPEN_PAREN none none ⟨0, 0⟩).type = .SEMICOLON) →
      (Token.mk .OPEN_PAREN none none ⟨0, 0⟩).text = none ∧
        (Token.mk .OPEN_PAREN none none ⟨0, 0⟩).number = none) :=
  c7_payload_discipline (init [40]) (Token.mk .OPEN_PAREN none none ⟨0, 0⟩)
    ⟨⟨[40], 1, false, false⟩, 0, 0⟩ (by decide)

/-! ## Location monotonicity (C5)

The location a token carries is exactly the scanner's current
(row, cursor - line_begin) at capture time.  The skipping phase only
moves that pair forward; each token branch, once it returns a token,
leaves the scanner strictly past the captured location (in row order,
or in column order within the same row). -/

/-- The location the scanner would attach to a token starting at the
current cursor. -/
def stateLoc (l : Lexer) : Location :=
  ⟨l.row, (l.strm.pos : Int) - l.line_begin⟩

/-- Strict order on locations: later row, or same row and later column. -/
def locLess (a b : Location) : Prop :=
  a.row < b.row ∨ (a.row = b.row ∧ a.col < b.col)

/-- Reflexive order on locations. -/
def locLessEq (a b : Location) : Prop :=
  a.row < b.row ∨ (a.row = b.row ∧ a.col ≤ b.col)

theorem locLess_trans_le {a b c : Location} (h1 : locLess a b)
    (h2 : locLessEq b c) : locLess a c := by
  unfold locLess locLessEq at *
  omega

theorem locLessEq_trans {a b c : Location} (h1 : locLessEq a b)
    (h2 : locLessEq b c) : locLessEq a c := by
  unfold locLessEq at *
  omega

/-- Preserved by every scanner operation, the seek-back re-reads
included: the source bytes are untouched, the row never decreases, and
`line_begin` only changes together with `row`. -/
def Track (l l1 : Lexer) : Prop :=
  l1.strm.data = l.strm.data ∧ l.row ≤ l1.row ∧
  (l1.row = l.row → l1.line_begin = l.line_begin)

/-- Additionally guaranteed by the forward-only phases: the cursor
never retreats, and an unmoved cursor means nothing was consumed. -/
def Adv (l l1 : Lexer) : Prop :=
  Track l l1 ∧ l.strm.pos ≤ l1.strm.pos ∧
  (l1.strm.pos = l.strm.pos → l1.row = l.row ∧ l1.line_begin = l.line_begin)

theorem Track.self (l : Lexer) : Track l l :=
  ⟨Eq.refl _, le_refl _, fun _ => Eq.refl _⟩

theorem Track.comp {a b c : Lexer} (h1 : Track a b) (h2 : Track b c) :
    Track a c := by
  obtain ⟨d1, r1, c1⟩ := h1
  obtain ⟨d2, r2, c2⟩ := h2
  refine ⟨d2.trans d1, r1.trans r2, fun h => ?_⟩
  rw [c2 (by omega), c1 (by omega)]

theorem Adv.self_adv (l : Lexer) : Adv l l :=
  ⟨Track.self l, le_refl _, fun _ => ⟨Eq.refl _, Eq.refl _⟩⟩

theorem Adv.track {a b : Lexer} (h : Adv a b) : Track a b := h.1

theorem Adv.comp_adv {a b c : Lexer} (h1 : Adv a b) (h2 : Adv b c) : Adv a c := by
  obtain ⟨t1, p1, q1⟩ := h1
  obtain ⟨t2, p2, q2⟩ := h2
  refine ⟨t1.comp t2, p1.trans p2, fun h => ?_⟩
  obtain ⟨hr2, hl2⟩ := q2 (by omega)
  obtain ⟨hr1, hl1⟩ := q1 (by omega)
  exact ⟨by omega, by rw [hl2, hl1]⟩

theorem Adv.of_fields {a b : Lexer} (hd : b.strm.data = a.strm.data)
    (hp : b.strm.pos = a.strm.pos) (hr : b.row = a.row)
    (hl : b.line_begin = a.line_begin) : Adv a b :=
  ⟨⟨hd, by omega, fun _ => hl⟩, by omega, fun _ => ⟨hr, hl⟩⟩

/-- From `Adv`, the token-start location moves weakly forward. -/
theorem Adv.le {a b : Lexer} (h : Adv a b) :
    locLessEq (stateLoc a) (stateLoc b) := by
  obtain ⟨⟨hd, hr, hc⟩, hp, hq⟩ := h
  simp only [locLessEq, stateLoc]
  rcases Nat.lt_or_ge a.row b.row with hlt | hge
  · exact Or.inl hlt
  · have he : b.row = a.row := Nat.le_antisymm hge hr
    have hl := hc he
    refine Or.inr ⟨he.symm, ?_⟩
    rw [hl]
    omega

theorem peek_fields (s : Strm) :
    (s.peek).2.data = s.data ∧ (s.peek).2.pos = s.pos := by
  unfold Strm.peek
  split
  · split <;> exact ⟨Eq.refl _, Eq.refl _⟩
  · exact ⟨Eq.refl _, Eq.refl _⟩

theorem tellg_fields (s : Strm) :
    (s.tellg).2.data = s.data ∧ (s.tellg).2.pos = s.pos := by
  unfold Strm.tellg
  split <;> exact ⟨Eq.refl _, Eq.refl _⟩

theorem tellg_good (s : Strm) (h : s.goodb = true) :
    s.tellg = ((s.pos : Int), s) := by
  simp [Strm.tellg, h]

theorem peek_good_some (s : Strm) (b : Nat) (h : s.goodb = true)
    (hb : s.data[s.pos]? = some b) : s.peek = ((b : Int), s) := by
  simp [Strm.peek, h, hb]

theorem get1_good_some (s : Strm) (b : Nat) (h : s.goodb = true)
    (hb : s.data[s.pos]? = some b) :
    s.get1 = ((b : Int), { s with pos := s.pos + 1 }) := by
  simp [Strm.get1, h, hb]

theorem adv_peek (l : Lexer) : Adv l { l with strm := (l.strm.peek).2 } :=
  Adv.of_fields (peek_fields l.strm).1 (peek_fields l.strm).2 (Eq.refl _) (Eq.refl _)

theorem adv_tellg (l : Lexer) : Adv l { l with strm := (l.strm.tellg).2 } :=
  Adv.of_fields (tellg_fields l.strm).1 (tellg_fields l.strm).2 (Eq.refl _) (Eq.refl _)

theorem adv_chop (l : Lexer) : Adv l (chop_char l) := by
  obtain ⟨⟨d, p, e, f⟩, lb, r⟩ := l
  cases e <;> cases f <;> try exact Adv.self_adv _
  rcases hb : d[p]? with _ | b
  · simp only [chop_char, Strm.get1, Strm.goodb, hb]
    norm_num
    exact Adv.of_fields (Eq.refl _) (Eq.refl _) (Eq.refl _) (Eq.refl _)
  · have hg : (Strm.mk d p false false).goodb = true := rfl
    have hg2 : (Strm.mk d (p + 1) false false).goodb = true := rfl
    by_cases h10 : (b : Int) = 10
    · simp only [chop_char, get1_good_some _ b hg hb, hg, if_true, if_pos h10,
        tellg_good _ hg2]
      exact ⟨⟨rfl, Nat.le_succ r, fun h => absurd h (Nat.succ_ne_self r)⟩,
        Nat.le_succ p, fun h => absurd h (Nat.succ_ne_self p)⟩
    · simp only [chop_char, get1_good_some _ b hg hb, hg, if_true, if_neg h10]
      exact ⟨⟨rfl, le_refl r, fun _ => rfl⟩, Nat.le_succ p,
        fun h => absurd h (Nat.succ_ne_self p)⟩

theorem adv_scan (p : Int → Bool) (fuel : Nat) :
    ∀ l : Lexer, Adv l (scan_while p fuel l) := by
  induction fuel with
  | zero => intro l; exact Adv.self_adv l
  | succ n ih =>
    intro l
    simp only [scan_while]
    split
    · split
      · exact ((adv_peek l).comp_adv (adv_chop _)).comp_adv (ih _)
      · exact adv_peek l
    · exact Adv.self_adv l

theorem adv_trim (fuel : Nat) (l : Lexer) : Adv l (trim_left fuel l) :=
  adv_scan isspaceB fuel l

theorem adv_drop_line (fuel : Nat) (l : Lexer) : Adv l (drop_line fuel l) := by
  simp only [drop_line]
  split
  · exact (adv_scan _ fuel l).comp_adv (adv_chop _)
  · exact adv_scan _ fuel l

theorem adv_comment_loop (innerFuel : Nat) (fuel : Nat) :
    ∀ l : Lexer, Adv l (comment_loop innerFuel fuel l) := by
  induction fuel with
  | zero => intro l; exact Adv.self_adv l
  | succ n ih =>
    intro l
    simp only [comment_loop]
    split
    · split
      · exact (adv_peek l).comp_adv
          (((adv_drop_line innerFuel _).comp_adv (adv_trim innerFuel _)).comp_adv (ih _))
      · exact adv_peek l
    · exact Adv.self_adv l

theorem chop_strict (l : Lexer) (b : Nat) (hg : l.strm.goodb = true)
    (hb : l.strm.data[l.strm.pos]? = some b) :
    (chop_char l).strm.pos = l.strm.pos + 1 ∧
    locLess (stateLoc l) (stateLoc (chop_char l)) := by
  obtain ⟨⟨d, p, e, f⟩, lb, r⟩ := l
  obtain ⟨rfl, rfl⟩ : e = false ∧ f = false := by
    simpa [Strm.goodb, Bool.and_eq_true] using hg
  have hg0 : (Strm.mk d p false false).goodb = true := rfl
  have hg2 : (Strm.mk d (p + 1) false false).goodb = true := rfl
  by_cases h10 : (b : Int) = 10
  · simp only [chop_char, get1_good_some _ b hg0 hb, hg0, if_true, if_pos h10,
      tellg_good _ hg2]
    exact ⟨by simp, Or.inl (Nat.lt_succ_self r)⟩
  · simp only [chop_char, get1_good_some _ b hg0 hb, hg0, if_true, if_neg h10]
    refine ⟨by simp, Or.inr ⟨rfl, ?_⟩⟩
    simp only [stateLoc]
    omega

theorem scan_first (p : Int → Bool) (fuel : Nat) (l : Lexer) (b : Nat)
    (hg : l.strm.goodb = true) (hb : l.strm.data[l.strm.pos]? = some b)
    (hp : p (b : Int) = true) :
    l.strm.pos + 1 ≤ (scan_while p (fuel + 1) l).strm.pos := by
  simp only [scan_while, hg, if_true, peek_good_some _ b hg hb, hp]
  have h1 := (chop_strict { l with strm := l.strm } b hg hb).1
  have h2 := ((adv_scan p fuel (chop_char { l with strm := l.strm })).2).1
  simp only [h1] at h2
  omega

theorem getLoop_fields : ∀ (k : Nat) (s : Strm),
    (getLoop k s).2.data = s.data ∧ s.pos ≤ (getLoop k s).2.pos := by
  intro k
  induction k with
  | zero => intro s; exact ⟨rfl, le_refl _⟩
  | succ n ih =>
    intro s
    rcases hb : s.data[s.pos]? with _ | b
    · simp only [getLoop, hb]
      exact ⟨trivial, le_refl _⟩
    · by_cases h0 : b = 0
      · simp only [getLoop, hb, if_pos h0]
        exact ⟨trivial, le_refl _⟩
      · simp only [getLoop, hb, if_neg h0]
        have hp2 : s.pos + 1 ≤ (getLoop n { s with pos := s.pos + 1 }).2.pos :=
          (ih { s with pos := s.pos + 1 }).2
        exact ⟨(ih { s with pos := s.pos + 1 }).1, by omega⟩

theorem getN_fields (s : Strm) (count : Int) :
    ((s.getN count).2).data = s.data ∧ s.pos ≤ (s.getN count).2.pos := by
  simp only [Strm.getN]
  split
  · obtain ⟨hd, hp⟩ := getLoop_fields (count - 1).toNat s
    split <;> split <;> exact ⟨hd, hp⟩
  · exact ⟨rfl, le_refl _⟩

theorem tellg_bad (s : Strm) (hg : s.goodb = false) :
    s.tellg = (-1, { s with failbit := true }) := by
  simp [Strm.tellg, hg]

theorem getN_fst_bad (s : Strm) (count : Int) (hg : s.goodb = false) :
    (s.getN count).1 = none := by
  simp [Strm.getN, hg]

theorem seekg_bad (s : Strm) (off : Int) (hf : s.failbit = true) :
    (s.seekg off).goodb = false := by
  simp [Strm.seekg, Strm.goodb, hf]

theorem seekg_good (s : Strm) (off : Int) (hg : s.goodb = true) :
    s.seekg off = { s with pos := off.toNat } := by
  obtain ⟨d, p, e, f⟩ := s
  obtain ⟨rfl, rfl⟩ : e = false ∧ f = false := by
    simpa [Strm.goodb, Bool.and_eq_true] using hg
  simp [Strm.seekg, Strm.goodb]

theorem getN_fst_good (s : Strm) (count : Int) (hg : s.goodb = true)
    (h1 : 1 ≤ count) : ∃ bs, (s.getN count).1 = some bs := by
  simp only [Strm.getN, hg, if_true, if_pos h1]
  exact ⟨_, rfl⟩

theorem getN_first (s : Strm) (count : Int) (b : Nat)
    (hg : s.goodb = true) (h2 : 2 ≤ count)
    (hb : s.data[s.pos]? = some b) (hb0 : b ≠ 0) :
    s.pos + 1 ≤ (s.getN count).2.pos := by
  simp only [Strm.getN, hg, if_true]
  obtain ⟨k, hk⟩ : ∃ k, (count - 1).toNat = k + 1 :=
    ⟨(count - 1).toNat - 1, by omega⟩
  rw [hk]
  simp only [getLoop, hb, if_neg hb0, List.isEmpty_cons]
  have hp2 : s.pos + 1 ≤ (getLoop k { s with pos := s.pos + 1 }).2.pos :=
    (getLoop_fields k { s with pos := s.pos + 1 }).2
  split <;> simp only [Bool.false_eq_true, if_false] <;> omega

theorem seekg_data (s : Strm) (off : Int) : (s.seekg off).data = s.data := by
  simp only [Strm.seekg]
  split <;> rfl

theorem rescan_bad (start : Int) (l2 : Lexer) (hg : l2.strm.goodb = false) :
    (rescan start l2).1 = none := by
  simp only [rescan, tellg_bad _ hg]
  exact getN_fst_bad _ _ (seekg_bad _ _ rfl)

theorem rescan_track (start : Int) (l2 : Lexer) :
    Track l2 (rescan start l2).2 := by
  refine ⟨?_, le_refl _, fun _ => rfl⟩
  show ((((l2.strm.tellg).2.seekg start).getN _).2).data = l2.strm.data
  rw [(getN_fields _ _).1, seekg_data, (tellg_fields _).1]

theorem rescan_good (q : Nat) (l2 : Lexer) (hg : l2.strm.goodb = true)
    (hq : q ≤ l2.strm.pos) :
    (∃ bs, (rescan (q : Int) l2).1 = some bs) ∧
    q ≤ ((rescan (q : Int) l2).2).strm.pos := by
  simp only [rescan, tellg_good _ hg, seekg_good _ _ hg, Int.toNat_natCast]
  constructor
  · exact getN_fst_good { l2.strm with pos := q } _ hg (by omega)
  · exact (getN_fields { l2.strm with pos := q } _).2

theorem rescan_good_first (q : Nat) (b : Nat) (l2 : Lexer)
    (hg : l2.strm.goodb = true) (hq : q + 1 ≤ l2.strm.pos)
    (hbq : l2.strm.data[q]? = some b) (hb0 : b ≠ 0) :
    q + 1 ≤ ((rescan (q : Int) l2).2).strm.pos := by
  simp only [rescan, tellg_good _ hg, seekg_good _ _ hg, Int.toNat_natCast]
  exact getN_first { l2.strm with pos := q } _ b hg (by omega) hbq hb0

theorem identBranch_tok_adv (fuel : Nat) (loc : Location) (l : Lexer) (b : Nat)
    (hg : l.strm.goodb = true) (hb : l.strm.data[l.strm.pos]? = some b)
    (hpb : isalnumB (b : Int) = true) (hb0 : b ≠ 0) (t : Token) (l1 : Lexer)
    (h : identBranch (fuel + 1) loc l = .tok t l1) :
    t.location = loc ∧ Track l l1 ∧ l.strm.pos + 1 ≤ l1.strm.pos := by
  simp only [identBranch, tellg_good _ hg] at h
  rw [show ({ strm := l.strm, line_begin := l.line_begin, row := l.row } : Lexer) = l
    from rfl] at h
  cases hgood2 : (scan_while isalnumB (fuel + 1) l).strm.goodb with
  | false =>
    rw [rescan_bad _ _ hgood2] at h
    exact absurd h (by simp)
  | true =>
    have hadv := adv_scan isalnumB (fuel + 1) l
    have hq : l.strm.pos + 1 ≤ (scan_while isalnumB (fuel + 1) l).strm.pos :=
      scan_first isalnumB fuel l b hg hb hpb
    have hbq : (scan_while isalnumB (fuel + 1) l).strm.data[l.strm.pos]? = some b := by
      rw [hadv.track.1]; exact hb
    obtain ⟨bs, hbs⟩ := (rescan_good l.strm.pos _ hgood2 (by omega)).1
    have hfirst := rescan_good_first l.strm.pos b _ hgood2 hq hbq hb0
    simp only [hbs] at h
    injection h with h1 h2
    subst h1
    subst h2
    exact ⟨rfl, hadv.track.comp (rescan_track _ _), hfirst⟩

theorem numberBranch_tok_adv (fuel : Nat) (loc : Location) (l : Lexer) (b : Nat)
    (hg : l.strm.goodb = true) (hb : l.strm.data[l.strm.pos]? = some b)
    (hpb : isdigitB (b : Int) = true) (hb0 : b ≠ 0) (t : Token) (l1 : Lexer)
    (h : numberBranch (fuel + 1) loc l = .tok t l1) :
    t.location = loc ∧ Track l l1 ∧ l.strm.pos + 1 ≤ l1.strm.pos := by
  simp only [numberBranch, tellg_good _ hg] at h
  rw [show ({ strm := l.strm, line_begin := l.line_begin, row := l.row } : Lexer) = l
    from rfl] at h
  cases hgood2 : (scan_while isdigitB (fuel + 1) l).strm.goodb with
  | false =>
    rw [rescan_bad _ _ hgood2] at h
    exact absurd h (by simp)
  | true =>
    have hadv := adv_scan isdigitB (fuel + 1) l
    have hq : l.strm.pos + 1 ≤ (scan_while isdigitB (fuel + 1) l).strm.pos :=
      scan_first isdigitB fuel l b hg hb hpb
    have hbq : (scan_while isdigitB (fuel + 1) l).strm.data[l.strm.pos]? = some b := by
      rw [hadv.track.1]; exact hb
    obtain ⟨bs, hbs⟩ := (rescan_good l.strm.pos _ hgood2 (by omega)).1
    have hfirst := rescan_good_first l.strm.pos b _ hgood2 hq hbq hb0
    simp only [hbs] at h
    injection h with h1 h2
    subst h1
    subst h2
    exact ⟨rfl, hadv.track.comp (rescan_track _ _), hfirst⟩

theorem track_pos_lt {a b : Lexer} (h : Track a b)
    (hp : a.strm.pos + 1 ≤ b.strm.pos) : locLess (stateLoc a) (stateLoc b) := by
  obtain ⟨hd, hr, hc⟩ := h
  simp only [locLess, stateLoc]
  rcases Nat.lt_or_ge a.row b.row with hlt | hge
  · exact Or.inl hlt
  · have he : b.row = a.row := Nat.le_antisymm hge hr
    have hl := hc he
    refine Or.inr ⟨he.symm, ?_⟩
    rw [hl]
    omega

theorem peek_good_none (s : Strm) (hg : s.goodb = true)
    (hb : s.data[s.pos]? = none) : s.peek = (-1, { s with eofbit := true }) := by
  simp [Strm.peek, hg, hb]

theorem stringBranch_tok_adv (fuel : Nat) (loc : Location) (l : Lexer)
    (hg : l.strm.goodb = true) (hb : l.strm.data[l.strm.pos]? = some 34)
    (t : Token) (l1 : Lexer) (h : stringBranch fuel loc l = .tok t l1) :
    t.location = loc ∧ Track l l1 ∧ l.strm.pos + 1 ≤ l1.strm.pos := by
  obtain ⟨⟨d, p, e, f⟩, lb, r⟩ := l
  obtain ⟨rfl, rfl⟩ : e = false ∧ f = false := by
    simpa [Strm.goodb, Bool.and_eq_true] using hg
  have hg0 : (Strm.mk d p false false).goodb = true := rfl
  have hg1 : (Strm.mk d (p + 1) false false).goodb = true := rfl
  have hch : chop_char ⟨⟨d, p, false, false⟩, lb, r⟩ =
      ⟨⟨d, p + 1, false, false⟩, lb, r⟩ := by
    simp only [chop_char, get1_good_some _ 34 hg0 hb, hg0, if_true]
    norm_num
  simp only [stringBranch, hch, tellg_good _ hg1] at h
  set L0 : Lexer := ⟨⟨d, p + 1, false, false⟩, lb, r⟩ with hL0
  set L2 := scan_while (fun c => !(c = 34)) fuel L0 with hL2
  cases hgood2 : L2.strm.goodb with
  | false =>
    rw [rescan_bad _ _ hgood2] at h
    exact absurd h (by simp)
  | true =>
    have hadv : Adv L0 L2 := by rw [hL2]; exact adv_scan _ _ _
    have hq : p + 1 ≤ L2.strm.pos := hadv.2.1
    obtain ⟨bs, hbs⟩ := (rescan_good (p + 1) L2 hgood2 hq).1
    have hple := (rescan_good (p + 1) L2 hgood2 hq).2
    simp only [hbs] at h
    injection h with h1 h2
    subst h1
    subst h2
    have htr : Track (⟨⟨d, p, false, false⟩, lb, r⟩ : Lexer)
        (chop_char (rescan ((p : Nat) + 1 : Nat) L2).2) := by
      refine (Track.comp ?_ (Track.comp hadv.track
        (Track.comp (rescan_track _ _) (adv_chop _).track)))
      rw [← hch]
      exact (adv_chop _).track
    have hcpos := ((adv_chop (rescan ((p : Nat) + 1 : Nat) L2).2).2).1
    refine ⟨rfl, htr, ?_⟩
    show p + 1 ≤ (chop_char (rescan ((p : Nat) + 1 : Nat) L2).2).strm.pos
    omega

theorem next_token_tok (l : Lexer) (t : Token) (l1 : Lexer)
    (h : next_token l = .tok t l1) :
    locLessEq (stateLoc l) t.location ∧ locLess t.location (stateLoc l1) := by
  simp only [next_token] at h
  rw [show lexFuel l = l.strm.data.length + 1 + 1 from rfl] at h
  generalize hL2 : comment_loop (l.strm.data.length + 1 + 1)
    (l.strm.data.length + 1 + 1) (trim_left (l.strm.data.length + 1 + 1) l) = L2 at h
  have hadv : Adv l L2 := by
    rw [← hL2]
    exact (adv_trim _ _).comp_adv (adv_comment_loop _ _ _)
  split at h
  · exact absurd h (by simp)
  next hgood =>
    have hg2 : L2.strm.goodb = true := by simpa using hgood
    simp only [tellg_good _ hg2] at h
    rcases hpk : L2.strm.data[L2.strm.pos]? with _ | b
    · simp only [peek_good_none _ hg2 hpk] at h
      rw [show (isalphaB (-1)) = false from rfl,
        show (is_in_token_map (-1)) = false from rfl,
        show (isdigitB (-1)) = false from rfl] at h
      norm_num at h
      exact absurd h (by simp)
    · simp only [peek_good_some _ b hg2 hpk] at h
      by_cases ha : isalphaB (b : Int) = true
      · rw [if_pos ha] at h
        have hb0 : b ≠ 0 := by
          simp only [isalphaB, Bool.or_eq_true, Bool.and_eq_true,
            decide_eq_true_eq] at ha
          omega
        have hpb : isalnumB (b : Int) = true := by simp [isalnumB, ha]
        obtain ⟨tl, htr, hpos⟩ :=
          identBranch_tok_adv (l.strm.data.length + 1) _ L2 b hg2 hpk hpb hb0 t l1 h
        rw [tl]
        exact ⟨hadv.le, track_pos_lt htr hpos⟩
      · rw [if_neg ha] at h
        by_cases hm : is_in_token_map (b : Int) = true
        · rw [if_pos hm] at h
          injection h with h1 h2
          subst h1
          subst h2
          exact ⟨hadv.le, (chop_strict L2 b hg2 hpk).2⟩
        · rw [if_neg hm] at h
          by_cases hd : isdigitB (b : Int) = true
          · rw [if_pos hd] at h
            have hb0 : b ≠ 0 := by
              simp only [isdigitB, Bool.and_eq_true, decide_eq_true_eq] at hd
              omega
            obtain ⟨tl, htr, hpos⟩ :=
              numberBranch_tok_adv (l.strm.data.length + 1) _ L2 b hg2 hpk hd hb0 t l1 h
            rw [tl]
            exact ⟨hadv.le, track_pos_lt htr hpos⟩
          · rw [if_neg hd] at h
            by_cases hqq : (b : Int) = 34
            · rw [if_pos hqq] at h
              have hb34 : b = 34 := by omega
              subst hb34
              obtain ⟨tl, htr, hpos⟩ :=
                stringBranch_tok_adv _ _ L2 hg2 hpk t l1 h
              rw [tl]
              exact ⟨hadv.le, track_pos_lt htr hpos⟩
            · rw [if_neg hqq] at h
              exact absurd h (by simp)

theorem run_head (n : Nat) (l : Lexer) (t : Token) (rest : List Token)
    (h : run n l = t :: rest) : locLessEq (stateLoc l) t.location := by
  cases n with
  | zero => simp [run] at h
  | succ m =>
    cases hnt : next_token l with
    | tok t1 l1 =>
      simp only [run, hnt] at h
      injection h with h1 h2
      subst h1
      exact (next_token_tok l t1 l1 hnt).1
    | eoi l1 =>
      simp only [run, hnt] at h
      exact absurd h (by simp)
    | undef =>
      simp only [run, hnt] at h
      exact absurd h (by simp)
    | fatal l1 =>
      simp only [run, hnt] at h
      exact absurd h (by simp)

theorem run_chain (n : Nat) : ∀ l : Lexer,
    List.Chain' (fun a b => locLess a.location b.location) (run n l) := by
  induction n with
  | zero => intro l; simp [run]
  | succ m ih =>
    intro l
    cases hnt : next_token l with
    | tok t1 l1 =>
      simp only [run, hnt]
      refine List.chain'_cons'.mpr ⟨?_, ih l1⟩
      intro y hy
      rcases hr : run m l1 with _ | ⟨t2, rest⟩
      · rw [hr] at hy; simp at hy
      · rw [hr] at hy
        simp at hy
        subst hy
        exact locLess_trans_le (next_token_tok l t1 l1 hnt).2
          (run_head m l1 t2 rest hr)
    | eoi l1 => simp [run, hnt]
    | undef => simp [run, hnt]
    | fatal l1 => simp [run, hnt]

/-- C5: for all consecutive tokens A then B produced by one scan of any
source, B's row is greater than or equal to A's row, and when the rows
are equal, B's column is strictly greater than A's column. -/
theorem c5_location_monotonic (src : List Nat) (n : Nat) :
    List.Chain' (fun a b =>
      a.location.row < b.location.row ∨
      (a.location.row = b.location.row ∧ a.location.col < b.location.col))
      (run n (init src)) :=
  run_chain n (init src)
